import Mathlib

/-!
Verification of the TSP repeated-sampling optimizer (`tsp.py`) against its
natural-language specification.

The Python functions are shallowly embedded:
* floats become exact rationals (`ℚ`);
* fallible operations (`min([])`, division by zero, `.values[0]` of an empty
  selection, `list.index` of an absent value) return `Except String`;
* the pandas dataframe of cities becomes a `List City` of rows;
* `random.shuffle` is modelled nondeterministically: the shuffled list is an
  input, quantified over permutations of the city column; in the driver loop
  the stream of shuffles is a function of the iteration index;
* geopy's geodesic mileage is an external collaborator, abstracted as a
  distance function parameter `dist`;
* wall-clock timing and console printing are omitted (they do not affect any
  returned value).
-/

namespace TSP

/-- One row of the cities dataframe: name, latitude, longitude. -/
structure City where
  name : String
  latitude : ℚ
  longitude : ℚ
deriving DecidableEq

/-- Python slice `l[-k:]` for a nonnegative `k` (`l[-0:]` is the whole list). -/
def sliceFromNeg (l : List ℚ) (k : Nat) : List ℚ :=
  if k = 0 then l else l.drop (l.length - k)

/-- Python slice `l[:-k]` for a nonnegative `k` (`l[:-0]` is the empty list). -/
def sliceToNeg (l : List ℚ) (k : Nat) : List ℚ :=
  if k = 0 then [] else l.take (l.length - k)

/-- Python `min` over the rest of a list, given the least value seen so far
(ties keep the earlier element, as in CPython). -/
def pyMinAux (x : ℚ) : List ℚ → ℚ
  | [] => x
  | y :: ys => pyMinAux (if y < x then y else x) ys

/-- Python `min` over a list: raises `ValueError` on an empty sequence. -/
def pyMin : List ℚ → Except String ℚ
  | [] => Except.error "ValueError: min() arg is an empty sequence"
  | x :: xs => Except.ok (pyMinAux x xs)

/-- Python `max` over the rest of a list, given the greatest value seen so
far. -/
def pyMaxAux (x : ℚ) : List ℚ → ℚ
  | [] => x
  | y :: ys => pyMaxAux (if x < y then y else x) ys

/-- Python `max` over a list: raises `ValueError` on an empty sequence. -/
def pyMax : List ℚ → Except String ℚ
  | [] => Except.error "ValueError: max() arg is an empty sequence"
  | x :: xs => Except.ok (pyMaxAux x xs)

/-- Python `sum` over a list of numbers: a left-to-right fold from 0. -/
def pySum (l : List ℚ) : ℚ := l.foldl (· + ·) 0

/-- Python `abs` on a number. -/
def pyAbs (q : ℚ) : ℚ := if q < 0 then -q else q

/-- Python `list.index(x)`: index of the first occurrence, `ValueError` when
absent. -/
def pyIndex : List ℚ → ℚ → Except String Nat
  | [], _ => Except.error "ValueError: x is not in list"
  | y :: ys, x => if y = x then Except.ok 0 else (pyIndex ys x).map (· + 1)

/-- `analyze_convergence(distance_list, window=5)` from `tsp.py`:
returns `None` when `len(distance_list) < window`; otherwise takes the
minimum of the trailing window and the minimum of everything before it and
returns the relative improvement as a percentage.  `min` of an empty slice
raises `ValueError`; division by a zero `previous_best` raises
`ZeroDivisionError`. -/
def analyze_convergence (distance_list : List ℚ) (window : Nat) :
    Except String (Option ℚ) :=
  if distance_list.length < window then Except.ok none
  else do
    let recent_best ← pyMin (sliceFromNeg distance_list window)
    let previous_best ← pyMin (sliceToNeg distance_list window)
    if previous_best = 0 then
      Except.error "ZeroDivisionError: float division by zero"
    else
      Except.ok (some ((previous_best - recent_best) / previous_best * 100))

/-- Rows of the dataframe whose `city` column equals `name`: the boolean
mask selection `cities_df[cities_df["city"] == name]`. -/
def lookupRows (df : List City) (name : String) : List City :=
  df.filter (fun c => c.name == name)

/-- `.values[0]` on a selection: raises `IndexError` when the selection is
empty, else yields the first matching row. -/
def valuesHead (l : List City) : Except String City :=
  match l with
  | [] => Except.error "IndexError: index 0 is out of bounds"
  | c :: _ => Except.ok c

/-- The latitude/longitude pair `tsp` reads from the dataframe for one city
name. -/
def cityCoord (df : List City) (name : String) : Except String (ℚ × ℚ) := do
  let c ← valuesHead (lookupRows df name)
  Except.ok (c.latitude, c.longitude)

/-- Total variant of the coordinate read, used to state results; it defaults
to `(0, 0)` for an absent name and is only ever applied to present names. -/
def coordD (df : List City) (name : String) : ℚ × ℚ :=
  match lookupRows df name with
  | [] => (0, 0)
  | c :: _ => (c.latitude, c.longitude)

/-- The city-name pairs the `for i in range(len(city_list))` loop of `tsp`
walks: every index but the last pairs with its successor, and the last index
pairs with index 0 (the closing edge). -/
def tspEdges (city_list : List String) : List (String × String) :=
  (List.range city_list.length).map (fun i =>
    if i ≠ city_list.length - 1 then
      (city_list.getD i "", city_list.getD (i + 1) "")
    else
      (city_list.getD i "", city_list.getD 0 ""))

/-- The same edge walk in the shape the spec describes it: each city pairs
with its successor and the final city pairs with `first` (the closing edge
back to the start of the route). -/
def pairsAux (first : String) : List String → List (String × String)
  | [] => []
  | [a] => [(a, first)]
  | a :: b :: rest => (a, b) :: pairsAux first (b :: rest)

/-- `tsp(cities_df)` from `tsp.py`, with geopy's geodesic mileage abstracted
as `dist` and the shuffled copy of the `city` column supplied as `city_list`
(the in-place `shuffle` is modelled as a nondeterministically chosen
permutation).  It walks the edge pairs, reads both endpoints' coordinates
from the dataframe by name, sums the edge distances left to right and
returns the total together with the shuffled route. -/
def tsp (dist : ℚ × ℚ → ℚ × ℚ → ℚ) (cities_df : List City)
    (city_list : List String) : Except String (ℚ × List String) := do
  let distance_list ← (tspEdges city_list).mapM (fun e => do
    let p ← cityCoord cities_df e.1
    let q ← cityCoord cities_df e.2
    Except.ok (dist p q))
  Except.ok (pySum distance_list, city_list)

/-- A coordinate read with the dataframe state threaded through explicitly:
the pandas boolean-mask selection only reads the dataframe, so the state
comes back unchanged alongside the result. -/
def readCoord (df : List City) (name : String) :
    Except String (ℚ × ℚ) × List City :=
  (cityCoord df name, df)

/-- The edge walk of `tsp` with the dataframe state threaded through every
coordinate read, accumulating the distance list. -/
def tspGo (dist : ℚ × ℚ → ℚ × ℚ → ℚ) :
    List (String × String) → List City → List ℚ →
      Except String (List ℚ) × List City
  | [], df, acc => (Except.ok acc, df)
  | e :: es, df, acc =>
    match readCoord df e.1 with
    | (Except.error m, df1) => (Except.error m, df1)
    | (Except.ok p, df1) =>
      match readCoord df1 e.2 with
      | (Except.error m, df2) => (Except.error m, df2)
      | (Except.ok q, df2) => tspGo dist es df2 (acc ++ [dist p q])

/-- `tsp` in state-passing form: the result of `tsp` together with the
dataframe state after the call. -/
def tspS (dist : ℚ × ℚ → ℚ × ℚ → ℚ) (cities_df : List City)
    (city_list : List String) :
    Except String (ℚ × List String) × List City :=
  match tspGo dist (tspEdges city_list) cities_df [] with
  | (Except.error m, df1) => (Except.error m, df1)
  | (Except.ok dl, df1) => (Except.ok (pySum dl, city_list), df1)

/-- The mutable state of `main`'s simulation loop: the distance history, the
route history, the running best (`None` models the initial `float('inf')`)
and the plateau counter. -/
structure LoopState where
  distance_list : List ℚ
  city_list_list : List (List String)
  best_distance : Option ℚ
  iterations_since_improvement : Nat
deriving DecidableEq

/-- The improvement-tracking step of `main`: a strictly smaller distance
replaces the best and resets the plateau counter, anything else increments
the counter.  The initial `float('inf')` best is `none`, beaten by any
distance. -/
def stepBest (best : Option ℚ) (since : Nat) (distance : ℚ) : Option ℚ × Nat :=
  match best with
  | none => (some distance, 0)
  | some b => if distance < b then (some distance, 0) else (some b, since + 1)

/-- `improvement is not None and abs(improvement) < threshold` from `main`. -/
def improvementFires (improvement : Option ℚ) (thr : ℚ) : Bool :=
  match improvement with
  | none => false
  | some v => decide (pyAbs v < thr)

/-- The `for i in range(count)` loop of `main`, with the iteration index `i`
and the remaining fuel explicit.  Each iteration runs `tsp` on the shuffle
stream, appends to both histories, updates the best/plateau state, and — when
auto-stop is on and `i >= 10` — consults `analyze_convergence` with window 5
and breaks on a small absolute improvement or on a plateau of 20. -/
def mainLoop (dist : ℚ × ℚ → ℚ × ℚ → ℚ) (df : List City)
    (shuffles : Nat → List String) (auto_stop : Bool) (thr : ℚ) :
    Nat → Nat → LoopState → Except String LoopState
  | _, 0, st => Except.ok st
  | i, rem + 1, st =>
    match tsp dist df (shuffles i) with
    | Except.error m => Except.error m
    | Except.ok (distance, city_list) =>
      let dl := st.distance_list ++ [distance]
      let cll := st.city_list_list ++ [city_list]
      let bs := stepBest st.best_distance st.iterations_since_improvement distance
      let st1 : LoopState := ⟨dl, cll, bs.1, bs.2⟩
      if auto_stop ∧ 10 ≤ i then
        match analyze_convergence dl 5 with
        | Except.error m => Except.error m
        | Except.ok improvement =>
          if improvementFires improvement thr then Except.ok st1
          else if 20 ≤ bs.2 then Except.ok st1
          else mainLoop dist df shuffles auto_stop thr (i + 1) rem st1
      else mainLoop dist df shuffles auto_stop thr (i + 1) rem st1

/-- The results record `main` builds and writes out (wall-clock time
omitted): simulation count, best/average/worst distance, the best route and
the full distance history. -/
structure RunResult where
  simulations : Nat
  best_distance : ℚ
  average_distance : ℚ
  worst_distance : ℚ
  best_route : List String
  all_distances : List ℚ

/-- `main(count, df, ...)` from `tsp.py`: runs the simulation loop from
iteration 0 with an empty history, then projects the results —
`min(distance_list)`, `distance_list.index(min(...))` for the best route,
`sum/len` for the average and `max` for the worst.  With an empty history
(`count <= 0`) the `min` raises `ValueError`; the summary also prints the
overall improvement `(max - min) / max * 100`, which raises
`ZeroDivisionError` when the worst distance is exactly zero; all loop
errors propagate. -/
def main (dist : ℚ × ℚ → ℚ × ℚ → ℚ) (df : List City)
    (shuffles : Nat → List String) (count : Nat) (auto_stop : Bool)
    (thr : ℚ) : Except String RunResult := do
  let st ← mainLoop dist df shuffles auto_stop thr 0 count ⟨[], [], none, 0⟩
  let m ← pyMin st.distance_list
  let idx ← pyIndex st.distance_list m
  let worst ← pyMax st.distance_list
  if worst = 0 then Except.error "ZeroDivisionError: float division by zero"
  else
    match st.city_list_list.get? idx with
    | none => Except.error "IndexError: list index out of range"
    | some best_route =>
        Except.ok ⟨st.distance_list.length, m,
          pySum st.distance_list / (st.distance_list.length : ℚ), worst,
          best_route, st.distance_list⟩

/-- Specification-side running best of a distance stream after iteration
`i`: the least of `d 0 .. d i`, computed with the loop's strict-improvement
test. -/
def specBest (d : Nat → ℚ) : Nat → ℚ
  | 0 => d 0
  | i + 1 => if d (i + 1) < specBest d i then d (i + 1) else specBest d i

/-- Specification-side plateau counter after iteration `i`: 0 right after an
improvement, otherwise one more than at the previous iteration. -/
def specSince (d : Nat → ℚ) : Nat → Nat
  | 0 => 0
  | i + 1 => if d (i + 1) < specBest d i then 0 else specSince d i + 1

/-- The loop state before iteration `j` of a run whose `tsp` calls yield the
distance stream `d` and the route stream `r`. -/
def stateAt (d : Nat → ℚ) (r : Nat → List String) : Nat → LoopState
  | 0 => ⟨[], [], none, 0⟩
  | j + 1 => ⟨(List.range (j + 1)).map d, (List.range (j + 1)).map r,
      some (specBest d j), specSince d j⟩

/-- Witness fixture: a two-point metric on coordinate pairs. -/
def distW : ℚ × ℚ → ℚ × ℚ → ℚ := fun p q => if p = q then 0 else 1

/-- Witness fixture: a constant distance of 100 miles. -/
def dist100 : ℚ × ℚ → ℚ × ℚ → ℚ := fun _ _ => 100

/-- Witness fixture: a two-city table. -/
def dfW : List City := [⟨"A", 0, 0⟩, ⟨"B", 0, 1⟩]

/-- Witness fixture: a one-city table. -/
def dfW1 : List City := [⟨"A", 0, 0⟩]

/-- Witness fixture: the loop state after one constant-distance iteration
on `dfW1`. -/
def stW : LoopState := ⟨[100], [["A"]], some 100, 0⟩

/-- Witness fixture: the run result of that one-iteration run. -/
def resW : RunResult := ⟨1, 100, 100, 100, ["A"], [100]⟩

/-- Binding an `Except.ok` value just applies the continuation. -/
theorem exceptOkBind {ε α β : Type} (a : α) (f : α → Except ε β) :
    ((Except.ok a : Except ε α) >>= f) = f a := rfl

/-- A left fold of addition from `c` is `c` plus the fold from 0. -/
theorem foldl_add_eq (l : List ℚ) : ∀ c : ℚ,
    l.foldl (· + ·) c = c + l.foldl (· + ·) 0 := by
  induction l with
  | nil => intro c; simp
  | cons x xs ih => intro c; simp only [List.foldl]; rw [ih (c + x), ih (0 + x)]; ring

/-- `pySum` peels the head off a list. -/
theorem pySum_cons (x : ℚ) (xs : List ℚ) : pySum (x :: xs) = x + pySum xs := by
  simp only [pySum, List.foldl]
  rw [foldl_add_eq xs (0 + x)]
  ring

/-- Appending one element adds its value to the running sum. -/
theorem pySum_append_singleton (l : List ℚ) (x : ℚ) :
    pySum (l ++ [x]) = pySum l + x := by
  simp only [pySum, List.foldl_append, List.foldl]

/-- A sum of nonnegative values is nonnegative. -/
theorem pySum_nonneg (l : List ℚ) (h : ∀ x ∈ l, 0 ≤ x) : 0 ≤ pySum l := by
  induction l with
  | nil => simp [pySum]
  | cons x xs ih =>
      rw [pySum_cons]
      have hx := h x (List.mem_cons_self x xs)
      have hxs := ih (fun y hy => h y (List.mem_cons_of_mem x hy))
      linarith

/-- A zero sum of nonnegative values forces every value to be zero. -/
theorem pySum_eq_zero_all (l : List ℚ) (h : ∀ x ∈ l, 0 ≤ x)
    (h0 : pySum l = 0) : ∀ x ∈ l, x = 0 := by
  induction l with
  | nil => simp
  | cons x xs ih =>
      rw [pySum_cons] at h0
      have hx := h x (List.mem_cons_self x xs)
      have hxs : ∀ y ∈ xs, 0 ≤ y := fun y hy => h y (List.mem_cons_of_mem x hy)
      have hs := pySum_nonneg xs hxs
      have hx0 : x = 0 := by linarith
      have hxs0 : pySum xs = 0 := by linarith
      intro y hy
      rcases List.mem_cons.1 hy with rfl | hy2
      · exact hx0
      · exact ih hxs hxs0 y hy2

/-- The successful path of `analyze_convergence`: when the history is longer
than the window and both slice minima exist with a nonzero previous best, the
result is the percentage improvement of the windows' minima. -/
theorem analyze_ok (l : List ℚ) (window : Nat) (rb pb : ℚ)
    (hlen : ¬ l.length < window)
    (hrb : pyMin (sliceFromNeg l window) = Except.ok rb)
    (hpb : pyMin (sliceToNeg l window) = Except.ok pb)
    (hpb0 : pb ≠ 0) :
    analyze_convergence l window = Except.ok (some ((pb - rb) / pb * 100)) := by
  unfold analyze_convergence
  rw [if_neg hlen]
  show (pyMin (sliceFromNeg l window) >>= fun recent_best =>
    pyMin (sliceToNeg l window) >>= fun previous_best =>
    if previous_best = 0 then Except.error "ZeroDivisionError: float division by zero"
    else Except.ok (some ((previous_best - recent_best) / previous_best * 100))) = _
  rw [hrb, exceptOkBind, hpb, exceptOkBind, if_neg hpb0]

/-- `pairsAux` has one edge per city of the route. -/
theorem pairsAux_length (first : String) :
    ∀ l : List String, (pairsAux first l).length = l.length
  | [] => rfl
  | [_] => rfl
  | a :: b :: rest => by
      simp only [pairsAux, List.length_cons]
      rw [pairsAux_length first (b :: rest)]
      simp

/-- The `i`-th edge of `pairsAux` pairs city `i` with city `i+1`, or with
`first` at the end of the route. -/
theorem pairsAux_getElem (first : String) :
    ∀ (l : List String) (i : Nat), i < l.length →
      ∀ h2 : i < (pairsAux first l).length,
      (pairsAux first l)[i] =
        (l.get ⟨i, by rw [pairsAux_length] at h2; exact h2⟩,
          if h3 : i + 1 < l.length then l.get ⟨i + 1, h3⟩ else first)
  | [a], 0, _, _ => by simp [pairsAux]
  | a :: b :: rest, 0, _, _ => by simp [pairsAux]
  | a :: b :: rest, i + 1, h, h2 => by
      simp only [pairsAux, List.getElem_cons_succ]
      rw [pairsAux_getElem first (b :: rest) i (by simpa using h)
        (by simp only [pairsAux_length]; simpa using h)]
      simp only [List.length_cons, List.get_eq_getElem, List.getElem_cons_succ]
      congr 1
      by_cases hc : i + 1 < rest.length + 1
      · rw [dif_pos hc, dif_pos (by omega)]
      · rw [dif_neg hc, dif_neg (by omega)]

/-- The `i`-th pair walked by `tsp`'s index loop. -/
theorem tspEdges_getElem (l : List String) (i : Nat) (h : i < l.length)
    (h2 : i < (tspEdges l).length) :
    (tspEdges l)[i] =
      (l.get ⟨i, h⟩,
        if h3 : i + 1 < l.length then l.get ⟨i + 1, h3⟩ else l.getD 0 "") := by
  simp only [tspEdges, List.getElem_map, List.getElem_range, List.get_eq_getElem]
  by_cases hlast : i = l.length - 1
  · rw [if_neg (by omega), dif_neg (by omega), List.getD_eq_getElem l "" h]
  · rw [if_pos (by omega), dif_pos (by omega),
      List.getD_eq_getElem l "" h, List.getD_eq_getElem l "" (by omega)]

/-- On a nonempty route the index loop of `tsp` walks exactly the
consecutive edges followed by the closing edge back to the head. -/
theorem tspEdges_eq_pairs (x : String) (xs : List String) :
    tspEdges (x :: xs) = pairsAux x (x :: xs) := by
  apply List.ext_getElem
  · simp [tspEdges, pairsAux_length]
  · intro i h1 h2
    have hi : i < (x :: xs).length := by simpa [tspEdges] using h1
    rw [tspEdges_getElem (x :: xs) i hi h1, pairsAux_getElem x (x :: xs) i hi h2]
    simp

/-- Both endpoints of every edge come from the route (or are its head). -/
theorem pairsAux_mem (first : String) :
    ∀ (l : List String), ∀ e ∈ pairsAux first l,
      e.1 ∈ l ∧ (e.2 ∈ l ∨ e.2 = first)
  | [], e, he => by simp [pairsAux] at he
  | [a], e, he => by
      simp only [pairsAux, List.mem_singleton] at he
      subst he
      simp
  | a :: b :: rest, e, he => by
      simp only [pairsAux, List.mem_cons] at he
      rcases he with rfl | he
      · simp
      · have h := pairsAux_mem first (b :: rest) e he
        refine ⟨List.mem_cons_of_mem a h.1, ?_⟩
        rcases h.2 with h2 | h2
        · exact Or.inl (List.mem_cons_of_mem a h2)
        · exact Or.inr h2

/-- A function constant along every walked edge is constant on the whole
route, equal to its value at the head. -/
theorem pairsAux_chain {β : Type} (f : String → β) (first : String) :
    ∀ (l : List String), (∀ e ∈ pairsAux first l, f e.1 = f e.2) →
      ∀ a ∈ l, f a = f first
  | [], _, a, ha => absurd ha (List.not_mem_nil a)
  | [b], h, a, ha => by
      rcases List.mem_singleton.1 ha with rfl
      exact h (a, first) (by simp [pairsAux])
  | b :: c :: rest, h, a, ha => by
      have htail := pairsAux_chain f first (c :: rest)
        (fun e he => h e (List.mem_cons_of_mem _ he))
      rcases List.mem_cons.1 ha with rfl | ha2
      · have h1 : f a = f c := h (a, c) (by simp [pairsAux])
        rw [h1]
        exact htail c (List.mem_cons_self c rest)
      · exact htail a ha2

/-- Reading the coordinates of a present name succeeds, giving the first
matching row's pair. -/
theorem cityCoord_of_mem (df : List City) (name : String)
    (h : name ∈ df.map City.name) :
    cityCoord df name = Except.ok (coordD df name) := by
  have hne : lookupRows df name ≠ [] := by
    intro hnil
    rcases List.mem_map.1 h with ⟨c, hc, hname⟩
    have hcm : c ∈ lookupRows df name := by
      simp [lookupRows, List.mem_filter, hc, hname]
    rw [hnil] at hcm
    exact List.not_mem_nil c hcm
  cases hrows : lookupRows df name with
  | nil => exact absurd hrows hne
  | cons c cs =>
      show (valuesHead (lookupRows df name) >>= fun r =>
        Except.ok (r.latitude, r.longitude)) = Except.ok (coordD df name)
      unfold coordD
      rw [hrows]
      rfl

/-- When every edge endpoint is a present name, the edge traversal of `tsp`
succeeds and returns the pointwise distances. -/
theorem mapM_edges (dist : ℚ × ℚ → ℚ × ℚ → ℚ) (df : List City) :
    ∀ (es : List (String × String)),
      (∀ e ∈ es, e.1 ∈ df.map City.name ∧ e.2 ∈ df.map City.name) →
      (es.mapM (fun e => do
        let p ← cityCoord df e.1
        let q ← cityCoord df e.2
        Except.ok (dist p q))) =
      Except.ok (es.map (fun e => dist (coordD df e.1) (coordD df e.2)))
  | [], _ => rfl
  | e :: es, h => by
      rw [List.mapM_cons]
      have h1 := (h e (List.mem_cons_self e es)).1
      have h2 := (h e (List.mem_cons_self e es)).2
      show ((do
        let p ← cityCoord df e.1
        let q ← cityCoord df e.2
        Except.ok (dist p q)) >>= fun b =>
          (es.mapM (fun e => do
            let p ← cityCoord df e.1
            let q ← cityCoord df e.2
            Except.ok (dist p q))) >>= fun bs => pure (b :: bs)) = _
      rw [show (do
        let p ← cityCoord df e.1
        let q ← cityCoord df e.2
        Except.ok (dist p q)) = Except.ok (dist (coordD df e.1) (coordD df e.2)) by
          rw [show (do
            let p ← cityCoord df e.1
            let q ← cityCoord df e.2
            Except.ok (dist p q)) = (cityCoord df e.1 >>= fun p =>
              cityCoord df e.2 >>= fun q => Except.ok (dist p q)) from rfl,
            cityCoord_of_mem df e.1 h1, exceptOkBind,
            cityCoord_of_mem df e.2 h2, exceptOkBind]]
      rw [exceptOkBind,
        mapM_edges dist df es (fun x hx => h x (List.mem_cons_of_mem e hx)),
        exceptOkBind]
      rfl

/-- Every edge endpoint of a route drawn from the table's names is itself a
present name. -/
theorem tspEdges_mem (df : List City) (city_list : List String)
    (hmem : ∀ a ∈ city_list, a ∈ df.map City.name) :
    ∀ e ∈ tspEdges city_list,
      e.1 ∈ df.map City.name ∧ e.2 ∈ df.map City.name := by
  cases city_list with
  | nil => intro e he; simp [tspEdges] at he
  | cons x xs =>
      intro e he
      rw [tspEdges_eq_pairs] at he
      have h := pairsAux_mem x (x :: xs) e he
      refine ⟨hmem e.1 h.1, ?_⟩
      rcases h.2 with h2 | h2
      · exact hmem e.2 h2
      · exact h2 ▸ hmem x (List.mem_cons_self x xs)

/-- `tsp` succeeds on any route drawn from the table's names and returns the
edge-distance sum with the route unchanged. -/
theorem tsp_ok (dist : ℚ × ℚ → ℚ × ℚ → ℚ) (df : List City)
    (city_list : List String)
    (hmem : ∀ a ∈ city_list, a ∈ df.map City.name) :
    tsp dist df city_list =
      Except.ok (pySum ((tspEdges city_list).map
        (fun e => dist (coordD df e.1) (coordD df e.2))), city_list) := by
  have hedge := tspEdges_mem df city_list hmem
  show ((tspEdges city_list).mapM (fun e => do
      let p ← cityCoord df e.1
      let q ← cityCoord df e.2
      Except.ok (dist p q)) >>= fun distance_list =>
      Except.ok (pySum distance_list, city_list)) = _
  rw [mapM_edges dist df (tspEdges city_list) hedge, exceptOkBind]

/-- With unique names, the coordinate read of a row's name returns exactly
that row's coordinates. -/
theorem coordD_nodup (df : List City) (c : City)
    (hnd : (df.map City.name).Nodup) (hc : c ∈ df) :
    coordD df c.name = (c.latitude, c.longitude) := by
  induction df with
  | nil => cases hc
  | cons d rest ih =>
      rcases List.mem_cons.1 hc with rfl | hc2
      · unfold coordD lookupRows
        rw [List.filter_cons]
        simp only [beq_self_eq_true, if_true]
      · have hdc : (d.name == c.name) = false := by
          have hd : d.name ∉ rest.map City.name := by
            rw [List.map_cons, List.nodup_cons] at hnd
            exact hnd.1
          have hcm : c.name ∈ rest.map City.name :=
            List.mem_map_of_mem City.name hc2
          exact beq_eq_false_iff_ne.2 (fun he => hd (he ▸ hcm))
        have hnd2 : (rest.map City.name).Nodup := by
          rw [List.map_cons, List.nodup_cons] at hnd
          exact hnd.2
        have hrec := ih hnd2 hc2
        unfold coordD lookupRows
        rw [List.filter_cons, hdc]
        unfold coordD lookupRows at hrec
        simpa using hrec

/-- C1: the spec and the repository's own test (`test_convergence_edge_cases`)
require `analyze_convergence` to return the no-signal value `None` for every
history of length at most the window, including length exactly equal to the
window, and never to raise there.  The code only guards `len < window`: at
`len == window` it evaluates `min(distance_list[:-window])` on an empty slice
and raises `ValueError`.  The first conjunct exhibits the raise at the
boundary input from the repository's own test; the second shows the
below-window case does return the no-signal value. -/
theorem claim1_boundary_raises :
    analyze_convergence [1000, 950, 900, 880, 870] 5 =
      Except.error "ValueError: min() arg is an empty sequence"
    ∧ analyze_convergence [1000, 950, 900] 5 = Except.ok none :=
  ⟨rfl, rfl⟩

/-- C2 counterexample: on Scenario B's input the code does not return 14.0.
The previous best is `min` of the pre-window elements `[1000,950,900,880,870]`,
namely 870 — not 1000 — so the result is `(870-860)/870*100 = 100/87`. -/
theorem claim2_counterexample :
    analyze_convergence [1000, 950, 900, 880, 870, 865, 863, 862, 861, 860] 5 ≠
      Except.ok (some 14) := by
  rw [analyze_ok [1000, 950, 900, 880, 870, 865, 863, 862, 861, 860] 5 860 870
    (by norm_num) rfl rfl (by norm_num)]
  simp only [ne_eq, Except.ok.injEq, Option.some.injEq]
  norm_num

/-- C2 amended: on Scenario B's input `analyze_convergence` returns a positive
signal equal to `100/87` (about 1.149 percent): recent best 860 against
previous best 870, where the previous best is the minimum of the five
elements before the trailing window, not the overall starting value 1000. -/
theorem claim2_amended_positive :
    analyze_convergence [1000, 950, 900, 880, 870, 865, 863, 862, 861, 860] 5 =
      Except.ok (some (100 / 87))
    ∧ (0 : ℚ) < 100 / 87 := by
  rw [analyze_ok [1000, 950, 900, 880, 870, 865, 863, 862, 861, 860] 5 860 870
    (by norm_num) rfl rfl (by norm_num)]
  norm_num

/-- C3: the spec requires `analyze_convergence` to return no signal — and in
particular never to divide by zero — whenever the pre-window minimum
`previous_best` is non-positive.  The code has no such guard: with a zero
previous best it raises `ZeroDivisionError` (first conjunct), and with a
negative previous best it happily returns a numeric result (second
conjunct), contradicting the claim in both non-positive cases. -/
theorem claim3_nonpositive_previous_best :
    analyze_convergence [0, 0, 0, 0, 0, 0] 5 =
      Except.error "ZeroDivisionError: float division by zero"
    ∧ analyze_convergence [-100, -100, -100, -100, -100, -100] 5 =
      Except.ok (some 0) := by
  refine ⟨rfl, ?_⟩
  rw [analyze_ok [-100, -100, -100, -100, -100, -100] 5 (-100) (-100)
    (by norm_num) rfl rfl (by norm_num)]
  norm_num

/-- C4: with more history than the window and a positive pre-window minimum
`previous_best`, `analyze_convergence` returns exactly
`(previous_best - recent_best) / previous_best * 100`; in particular
Scenario C (`[1000]*10`, window 5) yields 0 and Scenario D
(`[10000]*10 + [5000]*5`, window 5) yields 50. -/
theorem claim4_improvement_formula :
    (∀ (l : List ℚ) (window : Nat) (rb pb : ℚ), window < l.length →
      pyMin (sliceFromNeg l window) = Except.ok rb →
      pyMin (sliceToNeg l window) = Except.ok pb → 0 < pb →
      analyze_convergence l window = Except.ok (some ((pb - rb) / pb * 100)))
    ∧ analyze_convergence
        [1000, 1000, 1000, 1000, 1000, 1000, 1000, 1000, 1000, 1000] 5 =
        Except.ok (some 0)
    ∧ analyze_convergence
        [10000, 10000, 10000, 10000, 10000, 10000, 10000, 10000, 10000, 10000,
          5000, 5000, 5000, 5000, 5000] 5 = Except.ok (some 50) := by
  refine ⟨fun l window rb pb h1 h2 h3 h4 =>
    analyze_ok l window rb pb (by omega) h2 h3 (ne_of_gt h4), ?_, ?_⟩
  · rw [analyze_ok [1000, 1000, 1000, 1000, 1000, 1000, 1000, 1000, 1000, 1000]
      5 1000 1000 (by norm_num) rfl rfl (by norm_num)]
    norm_num
  · rw [analyze_ok [10000, 10000, 10000, 10000, 10000, 10000, 10000, 10000,
      10000, 10000, 5000, 5000, 5000, 5000, 5000] 5 5000 10000
      (by norm_num) rfl rfl (by norm_num)]
    norm_num

/-- C4 witness: the general clause of `claim4_improvement_formula` applied at
the concrete history `[2,1,1,1,1,1]` with window 5. -/
theorem claim4_witness :
    analyze_convergence [2, 1, 1, 1, 1, 1] 5 =
      Except.ok (some (((2 : ℚ) - 1) / 2 * 100)) :=
  claim4_improvement_formula.1 [2, 1, 1, 1, 1, 1] 5 1 2 (by norm_num) rfl rfl
    (by norm_num)

/-- C5: on a table with at least one row and unique names, `tsp` returns the
left-to-right sum of the edge distances over the route's consecutive pairs
plus the closing edge back to the route head (`pairsAux` of the head).  If
the abstracted geodesic distance is nonnegative and separates points, the
total is nonnegative, and it is zero only when the table holds fewer than
two distinct coordinate points. -/
theorem claim5_tour_distance (dist : ℚ × ℚ → ℚ × ℚ → ℚ) (df : List City)
    (city_list : List String)
    (hnd : (df.map City.name).Nodup)
    (hperm : city_list.Perm (df.map City.name))
    (hlen : 1 ≤ df.length)
    (hpos : ∀ p q, 0 ≤ dist p q)
    (hsep : ∀ p q, dist p q = 0 ↔ p = q) :
    ∃ D, tsp dist df city_list = Except.ok (D, city_list)
      ∧ D = pySum ((pairsAux city_list.headI city_list).map
          (fun e => dist (coordD df e.1) (coordD df e.2)))
      ∧ 0 ≤ D
      ∧ (D = 0 → ∀ c1 ∈ df, ∀ c2 ∈ df,
          c1.latitude = c2.latitude ∧ c1.longitude = c2.longitude) := by
  have hmem : ∀ a ∈ city_list, a ∈ df.map City.name :=
    fun a ha => hperm.mem_iff.1 ha
  obtain ⟨x, xs, rfl⟩ : ∃ x xs, city_list = x :: xs := by
    cases city_list with
    | nil =>
        have hl := hperm.length_eq
        simp at hl
        omega
    | cons x xs => exact ⟨x, xs, rfl⟩
  refine ⟨_, tsp_ok dist df (x :: xs) hmem, ?_, ?_, ?_⟩
  · rw [tspEdges_eq_pairs]
    rfl
  · apply pySum_nonneg
    intro v hv
    rcases List.mem_map.1 hv with ⟨e, he, rfl⟩
    exact hpos _ _
  · intro hD c1 hc1 c2 hc2
    have hall : ∀ v ∈ ((tspEdges (x :: xs)).map
        (fun e => dist (coordD df e.1) (coordD df e.2))), v = 0 := by
      apply pySum_eq_zero_all
      · intro v hv
        rcases List.mem_map.1 hv with ⟨e, he, rfl⟩
        exact hpos _ _
      · exact hD
    have hchain : ∀ a ∈ x :: xs, coordD df a = coordD df x := by
      apply pairsAux_chain (coordD df) x (x :: xs)
      intro e he
      have hv : dist (coordD df e.1) (coordD df e.2) = 0 := by
        apply hall
        rw [tspEdges_eq_pairs]
        exact List.mem_map_of_mem _ he
      exact (hsep _ _).1 hv
    have hrow : ∀ c ∈ df, (c.latitude, c.longitude) = coordD df x := by
      intro c hc
      have hcs : c.name ∈ x :: xs :=
        hperm.mem_iff.2 (List.mem_map_of_mem City.name hc)
      rw [← coordD_nodup df c hnd hc]
      exact hchain c.name hcs
    have h12 : (c1.latitude, c1.longitude) = (c2.latitude, c2.longitude) := by
      rw [hrow c1 hc1, hrow c2 hc2]
    exact ⟨congrArg Prod.fst h12, congrArg Prod.snd h12⟩

/-- C5 witness: `claim5_tour_distance` applied to the two-city fixture table
with the reversed route and the two-point metric. -/
theorem claim5_witness :
    ∃ D, tsp distW dfW ["B", "A"] = Except.ok (D, ["B", "A"])
      ∧ D = pySum ((pairsAux (["B", "A"] : List String).headI ["B", "A"]).map
          (fun e => distW (coordD dfW e.1) (coordD dfW e.2)))
      ∧ 0 ≤ D
      ∧ (D = 0 → ∀ c1 ∈ dfW, ∀ c2 ∈ dfW,
          c1.latitude = c2.latitude ∧ c1.longitude = c2.longitude) :=
  claim5_tour_distance distW dfW ["B", "A"]
    (by decide)
    (List.Perm.swap "A" "B" [])
    (by decide)
    (fun p q => by unfold distW; split <;> norm_num)
    (fun p q => by
      by_cases h : p = q
      · simp [distW, h]
      · simp [distW, h])

/-- C6: for any route that is a permutation of the table's (unique) city
column — which is what the in-place `shuffle` of the fresh `to_list()` copy
produces — `tsp` succeeds and the route it returns is a permutation of the
city column: same length, no duplicates, no omissions. -/
theorem claim6_permutation (dist : ℚ × ℚ → ℚ × ℚ → ℚ) (df : List City)
    (city_list : List String)
    (hnd : (df.map City.name).Nodup)
    (hperm : city_list.Perm (df.map City.name)) :
    ∃ D route, tsp dist df city_list = Except.ok (D, route)
      ∧ route.Perm (df.map City.name)
      ∧ route.length = df.length
      ∧ route.Nodup := by
  refine ⟨_, city_list,
    tsp_ok dist df city_list (fun a ha => hperm.mem_iff.1 ha), hperm, ?_, ?_⟩
  · rw [hperm.length_eq, List.length_map]
  · exact hperm.symm.nodup hnd

/-- C6 witness: `claim6_permutation` applied to the two-city fixture. -/
theorem claim6_witness :
    ∃ D route, tsp distW dfW ["A", "B"] = Except.ok (D, route)
      ∧ route.Perm (dfW.map City.name)
      ∧ route.length = dfW.length
      ∧ route.Nodup :=
  claim6_permutation distW dfW ["A", "B"] (by decide)
    (List.Perm.refl ["A", "B"])

/-- The state-threaded edge walk never changes the dataframe: every
coordinate read hands the table back untouched. -/
theorem tspGo_frame (dist : ℚ × ℚ → ℚ × ℚ → ℚ) :
    ∀ (es : List (String × String)) (df : List City) (acc : List ℚ),
      (tspGo dist es df acc).2 = df
  | [], _, _ => rfl
  | e :: es, df, acc => by
      cases h1 : cityCoord df e.1 with
      | error m => simp [tspGo, readCoord, h1]
      | ok p =>
          cases h2 : cityCoord df e.2 with
          | error m => simp [tspGo, readCoord, h1, h2]
          | ok q =>
              simp only [tspGo, readCoord, h1, h2]
              exact tspGo_frame dist es df (acc ++ [dist p q])

/-- On present names the state-threaded walk succeeds with the pointwise
distances and the unchanged dataframe. -/
theorem tspGo_ok_of_mem (dist : ℚ × ℚ → ℚ × ℚ → ℚ) (df : List City) :
    ∀ (es : List (String × String)) (acc : List ℚ),
      (∀ e ∈ es, e.1 ∈ df.map City.name ∧ e.2 ∈ df.map City.name) →
      tspGo dist es df acc =
        (Except.ok (acc ++ es.map
          (fun e => dist (coordD df e.1) (coordD df e.2))), df)
  | [], acc, _ => by simp [tspGo]
  | e :: es, acc, h => by
      have h1 := cityCoord_of_mem df e.1 (h e (List.mem_cons_self e es)).1
      have h2 := cityCoord_of_mem df e.2 (h e (List.mem_cons_self e es)).2
      simp only [tspGo, readCoord, h1, h2]
      rw [tspGo_ok_of_mem dist df es
        (acc ++ [dist (coordD df e.1) (coordD df e.2)])
        (fun x hx => h x (List.mem_cons_of_mem e hx))]
      simp

/-- C10: a `tsp` call leaves the city table unchanged — the shuffle touches
only the fresh list copied out of the `city` column, and every dataframe
access is a read.  In state-passing form the table after the call equals the
table before it, and on any route drawn from the table's names (as every
loop iteration's shuffled copy is) the state-passing form returns exactly
what `tsp` returns; since each iteration passes the same unchanged table,
the table's names and coordinates are identical across the whole run. -/
theorem claim10_frame (dist : ℚ × ℚ → ℚ × ℚ → ℚ) (df : List City)
    (city_list : List String) :
    (tspS dist df city_list).2 = df
    ∧ ((∀ a ∈ city_list, a ∈ df.map City.name) →
        (tspS dist df city_list).1 = tsp dist df city_list) := by
  constructor
  · unfold tspS
    have hf := tspGo_frame dist (tspEdges city_list) df []
    cases hpr : tspGo dist (tspEdges city_list) df [] with
    | mk ex df1 =>
        rw [hpr] at hf
        cases ex
        · simpa using hf
        · simpa using hf
  · intro hmem
    unfold tspS
    rw [tspGo_ok_of_mem dist df (tspEdges city_list) []
      (tspEdges_mem df city_list hmem), tsp_ok dist df city_list hmem]
    simp

/-- C10 witness: the frame property at the two-city fixture, with the
present-names hypothesis discharged concretely. -/
theorem claim10_witness :
    (tspS distW dfW ["B", "A"]).2 = dfW
    ∧ (tspS distW dfW ["B", "A"]).1 = tsp distW dfW ["B", "A"] :=
  ⟨(claim10_frame distW dfW ["B", "A"]).1,
    (claim10_frame distW dfW ["B", "A"]).2 (by decide)⟩

/-- Binding an `Except.error` value stays that error. -/
theorem exceptErrorBind {ε α β : Type} (m : ε) (f : α → Except ε β) :
    ((Except.error m : Except ε α) >>= f) = Except.error m := rfl

/-- The running Python minimum is the seed or one of the scanned values. -/
theorem pyMinAux_mem : ∀ (xs : List ℚ) (x : ℚ),
    pyMinAux x xs = x ∨ pyMinAux x xs ∈ xs
  | [], x => Or.inl rfl
  | y :: ys, x => by
      simp only [pyMinAux]
      rcases pyMinAux_mem ys (if y < x then y else x) with h | h
      · rw [h]
        by_cases hc : y < x
        · rw [if_pos hc]; exact Or.inr (List.mem_cons_self y ys)
        · rw [if_neg hc]; exact Or.inl rfl
      · exact Or.inr (List.mem_cons_of_mem y h)

/-- The running Python minimum bounds the seed and every scanned value. -/
theorem pyMinAux_le : ∀ (xs : List ℚ) (x : ℚ),
    pyMinAux x xs ≤ x ∧ ∀ z ∈ xs, pyMinAux x xs ≤ z
  | [], x => ⟨le_refl x, by simp⟩
  | y :: ys, x => by
      simp only [pyMinAux]
      have ih := pyMinAux_le ys (if y < x then y else x)
      have hx : (if y < x then y else x) ≤ x := by
        by_cases hc : y < x
        · rw [if_pos hc]; exact le_of_lt hc
        · rw [if_neg hc]
      have hy : (if y < x then y else x) ≤ y := by
        by_cases hc : y < x
        · rw [if_pos hc]
        · rw [if_neg hc]; exact le_of_not_lt hc
      refine ⟨le_trans ih.1 hx, ?_⟩
      intro z hz
      rcases List.mem_cons.1 hz with rfl | hz2
      · exact le_trans ih.1 hy
      · exact ih.2 z hz2

/-- A successful Python `min` is a member of the list below all members. -/
theorem pyMin_spec (l : List ℚ) (m : ℚ) (h : pyMin l = Except.ok m) :
    m ∈ l ∧ ∀ z ∈ l, m ≤ z := by
  cases l with
  | nil => cases h
  | cons x xs =>
      have hm : m = pyMinAux x xs := by
        simp only [pyMin, Except.ok.injEq] at h
        exact h.symm
      subst hm
      constructor
      · rcases pyMinAux_mem xs x with h2 | h2
        · rw [h2]; exact List.mem_cons_self x xs
        · exact List.mem_cons_of_mem x h2
      · intro z hz
        rcases List.mem_cons.1 hz with rfl | hz2
        · exact (pyMinAux_le xs z).1
        · exact (pyMinAux_le xs x).2 z hz2

/-- A successful Python `list.index(x)` points at `x` and at no earlier
occurrence. -/
theorem pyIndex_spec : ∀ (l : List ℚ) (x : ℚ) (k : Nat),
    pyIndex l x = Except.ok k →
    l.get? k = some x ∧ ∀ j < k, l.get? j ≠ some x
  | [], x, k, h => by cases h
  | y :: ys, x, k, h => by
      by_cases hc : y = x
      · rw [show pyIndex (y :: ys) x = Except.ok 0 by
          simp only [pyIndex, if_pos hc]] at h
        cases h
        subst hc
        exact ⟨rfl, by omega⟩
      · rw [show pyIndex (y :: ys) x = (pyIndex ys x).map (· + 1) by
          simp only [pyIndex, if_neg hc]] at h
        cases hrec : pyIndex ys x with
        | error m => rw [hrec] at h; cases h
        | ok k2 =>
            rw [hrec] at h
            have hk : k = k2 + 1 := by
              simp only [Except.map, Except.ok.injEq] at h
              exact h.symm
            subst hk
            have ih := pyIndex_spec ys x k2 hrec
            refine ⟨by simpa using ih.1, ?_⟩
            intro j hj
            cases j with
            | zero =>
                simp only [List.get?_cons_zero, ne_eq, Option.some.injEq]
                exact hc
            | succ j2 =>
                simp only [List.get?_cons_succ]
                exact ih.2 j2 (by omega)

/-- C7: whenever `main` completes, its `best_distance` is the exact minimum
of `all_distances` (a member, below every entry), and `best_route` is the
tour recorded at the first iteration attaining that minimum: `main` selects
`distance_list.index(min(distance_list))`, the earliest occurrence, and
reads the route history at that index. -/
theorem claim7_best_selection (dist : ℚ × ℚ → ℚ × ℚ → ℚ) (df : List City)
    (shuffles : Nat → List String) (count : Nat) (auto : Bool) (thr : ℚ)
    (st : LoopState) (res : RunResult)
    (hloop : mainLoop dist df shuffles auto thr 0 count ⟨[], [], none, 0⟩ =
      Except.ok st)
    (hmain : main dist df shuffles count auto thr = Except.ok res) :
    res.all_distances = st.distance_list
    ∧ res.best_distance ∈ res.all_distances
    ∧ (∀ x ∈ res.all_distances, res.best_distance ≤ x)
    ∧ ∃ k, res.all_distances.get? k = some res.best_distance
        ∧ (∀ j < k, res.all_distances.get? j ≠ some res.best_distance)
        ∧ st.city_list_list.get? k = some res.best_route := by
  unfold main at hmain
  rw [hloop, exceptOkBind] at hmain
  cases hm : pyMin st.distance_list with
  | error m => rw [hm, exceptErrorBind] at hmain; cases hmain
  | ok m =>
      rw [hm, exceptOkBind] at hmain
      cases hidx : pyIndex st.distance_list m with
      | error m2 => rw [hidx, exceptErrorBind] at hmain; cases hmain
      | ok idx =>
          rw [hidx, exceptOkBind] at hmain
          cases hmax : pyMax st.distance_list with
          | error m3 => rw [hmax, exceptErrorBind] at hmain; cases hmain
          | ok worst =>
              rw [hmax, exceptOkBind] at hmain
              rcases eq_or_ne worst 0 with hw | hw
              · rw [if_pos hw] at hmain; cases hmain
              · rw [if_neg hw] at hmain
                cases hroute : st.city_list_list.get? idx with
                | none => rw [hroute] at hmain; cases hmain
                | some route =>
                    rw [hroute] at hmain
                    have hres : res = ⟨st.distance_list.length, m,
                        pySum st.distance_list / (st.distance_list.length : ℚ),
                        worst, route, st.distance_list⟩ := by
                      cases hmain
                      rfl
                    subst hres
                    have hspec := pyMin_spec st.distance_list m hm
                    have hidxs := pyIndex_spec st.distance_list m idx hidx
                    exact ⟨rfl, hspec.1, hspec.2, idx, hidxs.1, hidxs.2, hroute⟩

/-- The constant-distance fixture run: every `tsp` call returns 100. -/
theorem tsp_eval_hundred : tsp dist100 dfW1 ["A"] = Except.ok (100, ["A"]) := by
  have hmem : ∀ a ∈ (["A"] : List String), a ∈ dfW1.map City.name := by decide
  rw [tsp_ok dist100 dfW1 ["A"] hmem]
  norm_num [show tspEdges ["A"] = [("A", "A")] from rfl, dist100, pySum]

/-- The loop state of a one-iteration constant-distance run. -/
theorem mainLoop_eval_single :
    mainLoop dist100 dfW1 (fun _ => ["A"]) false 0 0 1 ⟨[], [], none, 0⟩ =
      Except.ok stW := by
  simp [mainLoop, tsp_eval_hundred, stepBest, stW]

/-- The run result of that one-iteration run. -/
theorem main_eval_single :
    main dist100 dfW1 (fun _ => ["A"]) 1 false 0 = Except.ok resW := by
  unfold main
  rw [mainLoop_eval_single, exceptOkBind]
  rw [show pyMin stW.distance_list = Except.ok 100 from rfl, exceptOkBind]
  rw [show pyIndex stW.distance_list 100 = Except.ok 0 by simp [stW, pyIndex]]
  rw [exceptOkBind]
  rw [show pyMax stW.distance_list = Except.ok 100 from rfl, exceptOkBind]
  rw [if_neg (by norm_num : ¬ (100 : ℚ) = 0)]
  rw [show stW.city_list_list.get? 0 = some ["A"] from rfl]
  norm_num [stW, resW, pySum]

/-- C7 witness: `claim7_best_selection` applied to the concrete
one-iteration run on the one-city fixture. -/
theorem claim7_witness :
    resW.all_distances = stW.distance_list
    ∧ resW.best_distance ∈ resW.all_distances
    ∧ (∀ x ∈ resW.all_distances, resW.best_distance ≤ x)
    ∧ ∃ k, resW.all_distances.get? k = some resW.best_distance
        ∧ (∀ j < k, resW.all_distances.get? j ≠ some resW.best_distance)
        ∧ stW.city_list_list.get? k = some resW.best_route :=
  claim7_best_selection dist100 dfW1 (fun _ => ["A"]) 1 false 0 stW resW
    mainLoop_eval_single main_eval_single

/-- C8: the driver performs no configuration validation.  An empty city set
is not rejected before the loop: the simulation iteration runs to completion
on the empty table, recording a distance of 0 (first conjunct); `main` then
dies much later, in the results summary, with `ZeroDivisionError` from the
improvement percentage `(max - min) / max * 100` over the all-zero history —
an accidental numeric crash, not a fast configuration error (second
conjunct).  A non-positive count runs zero iterations and then fails with
`ValueError` from `min` of the empty history, again after the loop rather
than in an up-front configuration check (third conjunct).  No conjunct
fails fast before the loop with a configuration error as the claim
requires. -/
theorem claim8_no_config_check :
    mainLoop distW [] (fun _ => []) false 0 0 1 ⟨[], [], none, 0⟩ =
      Except.ok ⟨[0], [[]], some 0, 0⟩
    ∧ main distW [] (fun _ => []) 1 false 0 =
      Except.error "ZeroDivisionError: float division by zero"
    ∧ main distW dfW (fun _ => ["A", "B"]) 0 false 0 =
      Except.error "ValueError: min() arg is an empty sequence" := by
  have htsp0 : tsp distW [] [] = Except.ok (0, []) := rfl
  have hq : mainLoop distW [] (fun _ => []) false 0 0 1 ⟨[], [], none, 0⟩ =
      Except.ok ⟨[0], [[]], some 0, 0⟩ := by
    simp [mainLoop, htsp0, stepBest]
  refine ⟨hq, ?_, rfl⟩
  unfold main
  rw [hq, exceptOkBind]
  rw [show pyMin ([0] : List ℚ) = Except.ok 0 from rfl, exceptOkBind]
  rw [show pyIndex ([0] : List ℚ) 0 = Except.ok 0 by simp [pyIndex]]
  rw [exceptOkBind]
  rw [show pyMax ([0] : List ℚ) = Except.ok 0 from rfl, exceptOkBind]
  rw [if_pos rfl]

/-- The improvement step at the canonical loop state matches the
specification-side best/counter recurrences. -/
theorem stepBest_stateAt (d : Nat → ℚ) (r : Nat → List String) :
    ∀ j, stepBest (stateAt d r j).best_distance
        (stateAt d r j).iterations_since_improvement (d j) =
      (some (specBest d j), specSince d j)
  | 0 => rfl
  | j + 1 => by
      show stepBest (some (specBest d j)) (specSince d j) (d (j + 1)) = _
      by_cases h : d (j + 1) < specBest d j
      · simp [stepBest, specBest, specSince, h]
      · simp [stepBest, specBest, specSince, h]

/-- Appending iteration `j`'s distance extends the canonical history. -/
theorem stateAt_dl (d : Nat → ℚ) (r : Nat → List String) :
    ∀ j, (stateAt d r j).distance_list ++ [d j] = (List.range (j + 1)).map d
  | 0 => by simp [stateAt, List.range_succ]
  | j + 1 => by
      show (List.range (j + 1)).map d ++ [d (j + 1)] = _
      conv_rhs => rw [List.range_succ, List.map_append]
      simp

/-- Appending iteration `j`'s route extends the canonical route history. -/
theorem stateAt_cll (d : Nat → ℚ) (r : Nat → List String) :
    ∀ j, (stateAt d r j).city_list_list ++ [r j] = (List.range (j + 1)).map r
  | 0 => by simp [stateAt, List.range_succ]
  | j + 1 => by
      show (List.range (j + 1)).map r ++ [r (j + 1)] = _
      conv_rhs => rw [List.range_succ, List.map_append]
      simp

/-- One loop iteration takes the canonical state at `j` to the canonical
state at `j + 1`. -/
theorem stateAt_succ (d : Nat → ℚ) (r : Nat → List String) (j : Nat) :
    (⟨(stateAt d r j).distance_list ++ [d j],
      (stateAt d r j).city_list_list ++ [r j],
      (stepBest (stateAt d r j).best_distance
        (stateAt d r j).iterations_since_improvement (d j)).1,
      (stepBest (stateAt d r j).best_distance
        (stateAt d r j).iterations_since_improvement (d j)).2⟩ : LoopState) =
    stateAt d r (j + 1) := by
  rw [stepBest_stateAt, stateAt_dl, stateAt_cll]
  rfl

/-- Any early termination of the simulation loop (fuel left over) happens
in an iteration with index at least 10, so at least 11 records exist. -/
theorem mainLoop_early_stop (dist : ℚ × ℚ → ℚ × ℚ → ℚ) (df : List City)
    (shuffles : Nat → List String) (auto : Bool) (thr : ℚ) :
    ∀ (rem i : Nat) (st st' : LoopState),
      mainLoop dist df shuffles auto thr i rem st = Except.ok st' →
      st.distance_list.length = i →
      st'.distance_list.length < i + rem →
      11 ≤ st'.distance_list.length
  | 0, i, st, st', h, hlen, hlt => by
      simp only [mainLoop] at h
      cases h
      omega
  | rem + 1, i, st, st', h, hlen, hlt => by
      simp only [mainLoop] at h
      split at h
      · cases h
      · rename_i distance city_list heq
        split at h
        · rename_i hcond
          split at h
          · cases h
          · split at h
            · cases h
              simp only [List.length_append, List.length_singleton]
              omega
            · split at h
              · cases h
                simp only [List.length_append, List.length_singleton]
                omega
              · exact mainLoop_early_stop dist df shuffles auto thr rem
                  (i + 1) _ st' h
                  (by simp only [List.length_append, List.length_singleton]; omega)
                  (by omega)
        · exact mainLoop_early_stop dist df shuffles auto thr rem
            (i + 1) _ st' h
            (by simp only [List.length_append, List.length_singleton]; omega)
            (by omega)

/-- The plateau run: when `tsp` yields the streams `d`/`r`, the statistical
trigger never fires through iteration `k + 20`, the plateau counter stays
below 20 before `k + 20` and reaches 20 there, and enough fuel remains, the
auto-stop loop runs exactly iterations `0 .. k + 20` and stops. -/
theorem mainLoop_plateau (dist : ℚ × ℚ → ℚ × ℚ → ℚ) (df : List City)
    (shuffles : Nat → List String) (thr : ℚ) (d : Nat → ℚ)
    (r : Nat → List String) (count k : Nat)
    (htsp : ∀ i, i < count → tsp dist df (shuffles i) = Except.ok (d i, r i))
    (hstat : ∀ i, 10 ≤ i → i ≤ k + 20 →
      ∃ v, analyze_convergence ((List.range (i + 1)).map d) 5 =
        Except.ok (some v) ∧ thr ≤ pyAbs v)
    (hsince : ∀ i, i < k + 20 → specSince d i < 20)
    (hs20 : specSince d (k + 20) = 20)
    (hcount : k + 20 < count) :
    mainLoop dist df shuffles true thr 0 count ⟨[], [], none, 0⟩ =
      Except.ok (stateAt d r (k + 21)) := by
  have key : ∀ m j, j + m = k + 20 →
      mainLoop dist df shuffles true thr j (count - j) (stateAt d r j) =
        Except.ok (stateAt d r (k + 21)) := by
    intro m
    induction m with
    | zero =>
        intro j hj
        have hj2 : j = k + 20 := by omega
        subst hj2
        obtain ⟨rem, hrem⟩ : ∃ rem, count - (k + 20) = rem + 1 :=
          ⟨count - (k + 20) - 1, by omega⟩
        rw [hrem]
        simp only [mainLoop, htsp (k + 20) (by omega)]
        rw [stateAt_dl d r (k + 20), stateAt_cll d r (k + 20),
          stepBest_stateAt d r (k + 20)]
        obtain ⟨v, hv, hthr⟩ := hstat (k + 20) (by omega) (by omega)
        have hff : improvementFires (some v) thr = false := by
          unfold improvementFires
          exact decide_eq_false (not_lt.2 hthr)
        rw [if_pos (⟨trivial, by omega⟩ : True ∧ 10 ≤ k + 20)]
        rw [show k + 20 + 1 = k + 21 from rfl] at hv
        simp only [hv]
        rw [hff]
        simp only [Bool.false_eq_true, if_false]
        rw [if_pos (by rw [hs20] : 20 ≤ (some (specBest d (k + 20)), specSince d (k + 20)).2)]
        rfl
    | succ m ih =>
        intro j hj
        have hjlt : j < k + 20 := by omega
        obtain ⟨rem, hrem⟩ : ∃ rem, count - j = rem + 1 :=
          ⟨count - j - 1, by omega⟩
        rw [hrem]
        simp only [mainLoop, htsp j (by omega)]
        rw [stateAt_dl d r j, stateAt_cll d r j, stepBest_stateAt d r j]
        have hrem2 : rem = count - (j + 1) := by omega
        by_cases hten : 10 ≤ j
        · rw [if_pos (⟨trivial, hten⟩ : True ∧ 10 ≤ j)]
          obtain ⟨v, hv, hthr⟩ := hstat j hten (by omega)
          have hff : improvementFires (some v) thr = false := by
            unfold improvementFires
            exact decide_eq_false (not_lt.2 hthr)
          simp only [hv]
          rw [hff]
          simp only [Bool.false_eq_true, if_false]
          rw [if_neg (by
            show ¬ 20 ≤ specSince d j
            have := hsince j hjlt
            omega)]
          rw [show (⟨(List.range (j + 1)).map d, (List.range (j + 1)).map r,
            (some (specBest d j), specSince d j).1,
            (some (specBest d j), specSince d j).2⟩ : LoopState) =
              stateAt d r (j + 1) from rfl]
          rw [hrem2]
          exact ih (j + 1) (by omega)
        · rw [if_neg (by
            intro hc
            exact hten hc.2)]
          rw [show (⟨(List.range (j + 1)).map d, (List.range (j + 1)).map r,
            (some (specBest d j), specSince d j).1,
            (some (specBest d j), specSince d j).2⟩ : LoopState) =
              stateAt d r (j + 1) from rfl]
          rw [hrem2]
          exact ih (j + 1) (by omega)
  have h0 := key (k + 20) 0 (by omega)
  rw [show stateAt d r 0 = (⟨[], [], none, 0⟩ : LoopState) from rfl] at h0
  rw [show count - 0 = count from rfl] at h0
  exact h0

/-- Python `abs` is nonnegative. -/
theorem pyAbs_nonneg (q : ℚ) : 0 ≤ pyAbs q := by
  unfold pyAbs
  split <;> linarith

/-- The running minimum of a constant scan is that constant. -/
theorem pyMinAux_const (c : ℚ) : ∀ (xs : List ℚ) (x : ℚ), x = c →
    (∀ y ∈ xs, y = c) → pyMinAux x xs = c
  | [], x, hx, _ => hx
  | y :: ys, x, hx, hys => by
      simp only [pyMinAux]
      apply pyMinAux_const c ys
      · have hy : y = c := hys y (List.mem_cons_self y ys)
        subst hx; subst hy
        simp
      · exact fun z hz => hys z (List.mem_cons_of_mem y hz)

/-- Python `min` of a nonempty constant list is that constant. -/
theorem pyMin_const (c : ℚ) (l : List ℚ) (hne : l ≠ [])
    (hc : ∀ x ∈ l, x = c) : pyMin l = Except.ok c := by
  cases l with
  | nil => exact absurd rfl hne
  | cons x xs =>
      simp only [pyMin, Except.ok.injEq]
      exact pyMinAux_const c xs x (hc x (List.mem_cons_self x xs))
        (fun y hy => hc y (List.mem_cons_of_mem x hy))

/-- On a constant nonzero history longer than the window the analyzer
returns the (zero-valued) improvement percentage without error. -/
theorem analyze_const (c : ℚ) (l : List ℚ) (hlen : 5 < l.length)
    (hc : ∀ x ∈ l, x = c) (hc0 : c ≠ 0) :
    analyze_convergence l 5 = Except.ok (some ((c - c) / c * 100)) := by
  apply analyze_ok l 5 c c (by omega) ?_ ?_ hc0
  · apply pyMin_const
    · have h5 : (sliceFromNeg l 5).length = 5 := by
        simp only [sliceFromNeg, if_neg (by omega : ¬ (5 : Nat) = 0),
          List.length_drop]
        omega
      intro hnil
      rw [hnil] at h5
      simp at h5
    · intro x hx
      apply hc
      have : x ∈ l.drop (l.length - 5) := by
        simpa [sliceFromNeg, if_neg (by omega : ¬ (5 : Nat) = 0)] using hx
      exact List.drop_subset _ l this
  · apply pyMin_const
    · have h5 : (sliceToNeg l 5).length = l.length - 5 := by
        simp only [sliceToNeg, if_neg (by omega : ¬ (5 : Nat) = 0),
          List.length_take]
        omega
      intro hnil
      rw [hnil] at h5
      simp at h5
      omega
    · intro x hx
      apply hc
      have : x ∈ l.take (l.length - 5) := by
        simpa [sliceToNeg, if_neg (by omega : ¬ (5 : Nat) = 0)] using hx
      exact List.take_subset _ l this

/-- The running best of a constant stream is that constant. -/
theorem specBest_const (c : ℚ) : ∀ i, specBest (fun _ => c) i = c
  | 0 => rfl
  | i + 1 => by
      simp only [specBest, specBest_const c i]
      simp

/-- The plateau counter of a constant stream counts the iterations. -/
theorem specSince_const (c : ℚ) : ∀ i, specSince (fun _ => c) i = i
  | 0 => rfl
  | i + 1 => by
      simp only [specSince, specBest_const c i]
      simp [specSince_const c i]


/-- C9: with auto-stop enabled, (1) warm-up: no early stop fires before 11
iterations have completed — convergence checks run only when the iteration
index is at least 10, so any run that stops with fuel remaining has at
least 11 records; and (2) plateau: if the running best last improved at
iteration `k` (the loop's plateau counter, mirrored by `specSince`, stays
below 20 before iteration `k + 20` and reaches exactly 20 there) and the
statistical threshold trigger never fires, the loop terminates at iteration
`k + 20` — exactly `k + 21` iterations run, not more. -/
theorem claim9_warmup_plateau :
    (∀ (dist : ℚ × ℚ → ℚ × ℚ → ℚ) (df : List City)
      (shuffles : Nat → List String) (auto : Bool) (thr : ℚ)
      (count : Nat) (st' : LoopState),
      mainLoop dist df shuffles auto thr 0 count ⟨[], [], none, 0⟩ =
        Except.ok st' →
      st'.distance_list.length < count →
      11 ≤ st'.distance_list.length)
    ∧ (∀ (dist : ℚ × ℚ → ℚ × ℚ → ℚ) (df : List City)
        (shuffles : Nat → List String) (thr : ℚ) (d : Nat → ℚ)
        (r : Nat → List String) (count k : Nat),
        (∀ i, i < count → tsp dist df (shuffles i) = Except.ok (d i, r i)) →
        (∀ i, 10 ≤ i → i ≤ k + 20 →
          ∃ v, analyze_convergence ((List.range (i + 1)).map d) 5 =
            Except.ok (some v) ∧ thr ≤ pyAbs v) →
        (∀ i, i < k + 20 → specSince d i < 20) →
        specSince d (k + 20) = 20 →
        k + 20 < count →
        ∃ st', mainLoop dist df shuffles true thr 0 count ⟨[], [], none, 0⟩ =
            Except.ok st'
          ∧ st'.distance_list.length = k + 21) := by
  constructor
  · intro dist df shuffles auto thr count st' h hlt
    exact mainLoop_early_stop dist df shuffles auto thr count 0
      ⟨[], [], none, 0⟩ st' h rfl (by omega)
  · intro dist df shuffles thr d r count k htsp hstat hsince hs20 hcount
    refine ⟨stateAt d r (k + 21),
      mainLoop_plateau dist df shuffles thr d r count k htsp hstat hsince
        hs20 hcount, ?_⟩
    show ((List.range (k + 20 + 1)).map d).length = k + 21
    simp

/-- C9 witness: the plateau clause of `claim9_warmup_plateau` applied to a
constant-distance run (`k = 0`, threshold 0, 21 iterations of fuel): the
loop stops after exactly 21 iterations. -/
theorem claim9_witness :
    ∃ st', mainLoop dist100 dfW1 (fun _ => ["A"]) true 0 0 21 ⟨[], [], none, 0⟩ =
        Except.ok st'
      ∧ st'.distance_list.length = 21 :=
  claim9_warmup_plateau.2 dist100 dfW1 (fun _ => ["A"]) 0 (fun _ => 100) (fun _ => ["A"])
    21 0
    (fun i _ => tsp_eval_hundred)
    (fun i h1 h2 => ⟨(100 - 100) / 100 * 100,
      analyze_const 100 ((List.range (i + 1)).map (fun _ => 100))
        (by simp; omega)
        (by
          intro x hx
          rcases List.mem_map.1 hx with ⟨a, ha, h⟩
          simpa using h.symm)
        (by norm_num),
      pyAbs_nonneg _⟩)
    (fun i h => by rw [specSince_const]; omega)
    (by
      show specSince (fun _ => (100 : ℚ)) 20 = 20
      exact specSince_const 100 20)
    (by omega)

end TSP
